import Mathlib

/-!
Verification of the sat-search client core as described by the repository's
tutorial (`src/tutorial-1.ipynb`).  The library module implementing
`Search` (`satsearch/search.py`) and the `Items` result type (from sat-stac)
are not shipped in this repository snapshot, so the Query Normalizer, the
Paged Fetcher and the result-collection persistence are modelled from the
specification's description of them.
-/

namespace SatSearch

/-- A result record (a STAC Item): an id, a date, the parent collection it
references, and its queryable properties (e.g. `eo:cloud_cover`). -/
structure Record where
  id : String
  date : String
  collection : String
  properties : List (String × Int)
  deriving DecidableEq, Repr

/-- Canonical comparison operators supported by the query syntax. -/
inductive Op
  | eq
  | lt
  | lte
  | gt
  | gte
  deriving DecidableEq, Repr

/-- A parsed Property Expression: a (field name, comparison operator, value)
triple derived from a compact string form such as `eo:cloud_cover<10`. -/
structure PropExpr where
  field : String
  op : Op
  value : String
  deriving DecidableEq, Repr

/-- The string form of each operator symbol in the abbreviated syntax. -/
def opSymbol : Op → String
  | .eq => "="
  | .lt => "<"
  | .lte => "<="
  | .gt => ">"
  | .gte => ">="

/-- Whether a character is one of the operator symbol characters. -/
def isOpChar (c : Char) : Bool :=
  c = '=' || c = '<' || c = '>'

/-- Modelled from the spec: the scanner underlying property-expression
parsing (the `satsearch` query-string parser is not in the snapshot).  It
splits a character list at the first operator symbol, reading `<=` and `>=`
as single two-character symbols, and returns (field chars, operator,
value chars). -/
def splitProp : List Char → Option (List Char × Op × List Char)
  | [] => none
  | c :: rest =>
    if c = '=' then some ([], Op.eq, rest)
    else if c = '<' then
      match rest with
      | '=' :: rest2 => some ([], Op.lte, rest2)
      | _ => some ([], Op.lt, rest)
    else if c = '>' then
      match rest with
      | '=' :: rest2 => some ([], Op.gte, rest2)
      | _ => some ([], Op.gt, rest)
    else
      match splitProp rest with
      | some (f, o, v) => some (c :: f, o, v)
      | none => none

/-- Modelled from the spec: parsing of an abbreviated property string into a
Property Expression; fails (`none`) when the string does not split into a
field/operator/value triple with a nonempty field and a nonempty value. -/
def parseProp (s : String) : Option PropExpr :=
  match splitProp s.toList with
  | some (f, o, v) =>
    if f = [] ∨ v = [] then none
    else some ⟨String.mk f, o, String.mk v⟩
  | none => none

/-- A comparison object: the operators applied to one field, keyed by
operator (dictionary update semantics: last value for an operator wins). -/
abbrev CompObj := List (Op × String)

/-- The canonical `query` member of a filter document: comparison objects
keyed by field name. -/
abbrev FilterDoc := List (String × CompObj)

/-- Dictionary-style update of an association list: replace the value at the
key if present, otherwise append the binding at the end. -/
def updateAssoc {α β : Type} [DecidableEq α] : List (α × β) → α → β → List (α × β)
  | [], k, v => [(k, v)]
  | (k2, v2) :: rest, k, v =>
    if k = k2 then (k, v) :: rest else (k2, v2) :: updateAssoc rest k v

/-- Modelled from the spec: merging one Property Expression into a filter
document — expressions on the same field are merged into the one comparison
object keyed by that field. -/
def mergeExpr : FilterDoc → PropExpr → FilterDoc
  | [], e => [(e.field, [(e.op, e.value)])]
  | (f, co) :: rest, e =>
    if e.field = f then (f, updateAssoc co e.op e.value) :: rest
    else (f, co) :: mergeExpr rest e

/-- Modelled from the spec: folding a list of abbreviated property strings
into a filter document, failing when any entry does not parse. -/
def buildFilter : List String → FilterDoc → Option FilterDoc
  | [], doc => some doc
  | s :: rest, doc =>
    match parseProp s with
    | some e => buildFilter rest (mergeExpr doc e)
    | none => none

/-- Sort direction of a sort directive. -/
inductive Direction
  | asc
  | desc
  deriving DecidableEq, Repr

/-- An explicit sort directive. -/
structure SortSpec where
  field : String
  direction : Direction
  deriving DecidableEq, Repr

/-- Modelled from the spec: the abbreviated sort form (field name, optionally
prefixed with `-` for descending) translated into an explicit directive. -/
def parseSortSpec (s : String) : SortSpec :=
  match s.toList with
  | '-' :: rest => ⟨String.mk rest, .desc⟩
  | _ => ⟨s, .asc⟩

/-- The canonical search body POSTed to the search endpoint. -/
structure SearchBody where
  bbox : Option (List Int)
  intersects : Option String
  time : Option String
  query : FilterDoc
  sort : Option (List SortSpec)
  deriving DecidableEq, Repr

/-- The normalized request produced by the Query Normalizer: either a search
body for the search endpoint, or a direct lookup keyed by collection and the
literal ID list. -/
inductive NormalizedQuery
  | search (body : SearchBody)
  | lookup (collection : String) (ids : List String)
  deriving DecidableEq, Repr

/-- Errors raised by the client: a malformed query (raised at normalization
time, before any request is sent) or a transport failure. -/
inductive ClientError
  | invalidQuery
  | transportError
  deriving DecidableEq, Repr

/-- The keyword arguments accepted by the `Search.search` factory. -/
structure SearchKwargs where
  bbox : Option (List Int) := none
  intersects : Option String := none
  time : Option String := none
  datetime : Option String := none
  property : List String := []
  sort : Option (List String) := none
  ids : Option (List String) := none
  collection : Option String := none

/-- Modelled from the spec: the `Search.search` factory (Query Normalizer).
`ids` with `collection` short-circuits every other filter into a direct
lookup; `ids` without `collection` is an invalid query; otherwise
`collection` becomes an extra equality property expression, the property
strings are parsed and merged, a malformed one making the query invalid,
and `datetime` is an alias for `time` (the alias wins when both appear). -/
def searchFactory (kw : SearchKwargs) : Except ClientError NormalizedQuery :=
  match kw.ids with
  | some ids =>
    match kw.collection with
    | some c => .ok (.lookup c ids)
    | none => .error .invalidQuery
  | none =>
    let props :=
      match kw.collection with
      | some c => kw.property ++ ["collection=" ++ c]
      | none => kw.property
    match buildFilter props [] with
    | some doc =>
      .ok (.search
        { bbox := kw.bbox
          intersects := kw.intersects
          time := kw.datetime <|> kw.time
          query := doc
          sort := kw.sort.map (List.map parseSortSpec) })
    | none => .error .invalidQuery

/-- One request issued to the search endpoint: a starting offset into the
result set and the number of result records requested for this page
(`resultLimit = 0` is the count-only request). -/
structure ApiRequest where
  offset : Nat
  resultLimit : Nat
  deriving DecidableEq, Repr

/-- One server response: zero or more result records plus the total match
count. -/
structure Page where
  records : List Record
  total : Nat
  deriving DecidableEq, Repr

/-- A server is a (possibly failing) mapping from requests to pages. -/
abbrev Server := ApiRequest → Except ClientError Page

/-- An honest server over a fixed corpus: a request returns the slice of the
corpus starting at the offset, at most `resultLimit` records long, together
with the total match count. -/
def mkServer (corpus : List Record) : Server :=
  fun req => .ok ⟨(corpus.drop req.offset).take req.resultLimit, corpus.length⟩

/-- A server that behaves like `mkServer corpus` until the fetch reaches
`failAt`, then fails every request at offset `failAt` or beyond with a
transport error. -/
def failServer (corpus : List Record) (failAt : Nat) : Server :=
  fun req =>
    if failAt ≤ req.offset then .error .transportError
    else mkServer corpus req

/-- Modelled from the spec: the Paged Fetcher loop (the `satsearch` fetch
loop is not in the snapshot).  Starting at an offset it requests pages of
`ps` records, appends them to the accumulated Result Collection, advances
the offset by the number of records received, and stops when the collection
reaches `bound` records, when a page comes back short (end of results), or
when a page request fails — in which case the whole fetch aborts with the
transport error and no records.  It returns the trace of issued requests
together with the outcome. -/
def fetchPages (server : Server) (ps bound : Nat) :
    Nat → Nat → List Record → List ApiRequest × Except ClientError (List Record)
  | 0, _, acc => ([], .ok acc)
  | fuel + 1, offset, acc =>
    if bound ≤ acc.length then ([], .ok acc)
    else
      let req : ApiRequest := ⟨offset, ps⟩
      match server req with
      | .error e => ([req], .error e)
      | .ok page =>
        if page.records.length < ps then ([req], .ok (acc ++ page.records))
        else
          let rest := fetchPages server ps bound fuel (offset + page.records.length)
            (acc ++ page.records)
          (req :: rest.1, rest.2)

/-- The stopping bound of a full fetch: the requested limit capped by the
server-reported total, or the total itself when no limit is given. -/
def boundOf (limit : Option Nat) (total : Nat) : Nat :=
  match limit with
  | some l => min l total
  | none => total

/-- Modelled from the spec: `Search.items(limit)`.  A count-only request
learns the total, then the fetch loop gathers pages from offset 0 until
`min(limit, total)` records (or the total, when no limit is given) are
collected, and the finished collection is cut to that bound.  Returns the
trace of issued requests and the outcome. -/
def itemsOp (server : Server) (ps : Nat) (limit : Option Nat) :
    List ApiRequest × Except ClientError (List Record) :=
  let countReq : ApiRequest := ⟨0, 0⟩
  match server countReq with
  | .error e => ([countReq], .error e)
  | .ok page0 =>
    let bound := boundOf limit page0.total
    let rest := fetchPages server ps bound (page0.total + 1) 0 []
    (countReq :: rest.1, rest.2.map fun recs => recs.take bound)

/-- Modelled from the spec: `Search.found()`, the count-reporting entry
point.  It issues the single zero-result-limit request and returns the
server's total match count together with the (empty) records that request
transferred. -/
def foundOp (server : Server) : List ApiRequest × Except ClientError (Nat × List Record) :=
  let req : ApiRequest := ⟨0, 0⟩
  ([req], (server req).map fun p => (p.total, p.records))

/-- Insert a collection reference, keeping the list free of duplicates:
a reference already discovered is not added again. -/
def insertRef (cs : List String) (c : String) : List String :=
  if c ∈ cs then cs else cs ++ [c]

/-- Modelled from the spec: the collection references accumulated by a
Result Collection — the parent collection of each record, deduplicated by
identity in order of discovery. -/
def collectRefs (recs : List Record) : List String :=
  recs.foldl (fun cs r => insertRef cs r.collection) []

/-- A finished Result Collection: the fetched records and the deduplicated
collection references they mention. -/
structure ItemsCol where
  records : List Record
  collections : List String
  deriving DecidableEq, Repr

/-- A full fetch packaged as a Result Collection with its collection
references. -/
def itemsWithRefs (server : Server) (ps : Nat) (limit : Option Nat) :
    List ApiRequest × Except ClientError ItemsCol :=
  let r := itemsOp server ps limit
  (r.1, r.2.map fun recs => ⟨recs, collectRefs recs⟩)

/-- A JSON document. -/
inductive Json
  | str : String → Json
  | num : Int → Json
  | arr : List Json → Json
  | obj : List (String × Json) → Json

/-- Encode the queryable properties of a record as a JSON object. -/
def encodeProps (ps : List (String × Int)) : List (String × Json) :=
  ps.map fun p => (p.1, .num p.2)

/-- Decode a JSON object back into queryable properties. -/
def decodeProps : List (String × Json) → Option (List (String × Int))
  | [] => some []
  | (k, .num v) :: rest => (decodeProps rest).map fun r => (k, v) :: r
  | _ => none

/-- Encode one record as a JSON feature. -/
def encodeRecord (r : Record) : Json :=
  .obj [("id", .str r.id), ("date", .str r.date),
        ("collection", .str r.collection),
        ("properties", .obj (encodeProps r.properties))]

/-- Decode one JSON feature back into a record. -/
def decodeRecord : Json → Option Record
  | .obj [("id", .str i), ("date", .str d),
          ("collection", .str c), ("properties", .obj ps)] =>
    (decodeProps ps).map fun props => ⟨i, d, c, props⟩
  | _ => none

/-- Decode a list of JSON features. -/
def decodeRecords : List Json → Option (List Record)
  | [] => some []
  | j :: rest =>
    match decodeRecord j, decodeRecords rest with
    | some r, some rs => some (r :: rs)
    | _, _ => none

/-- Decode a list of JSON strings. -/
def decodeStrings : List Json → Option (List String)
  | [] => some []
  | .str s :: rest => (decodeStrings rest).map fun ss => s :: ss
  | _ => none

/-- Modelled from the spec: `Items.save` — the Result Collection persisted
as a JSON document holding the records and the referenced collection
metadata (the sat-stac `Items` class is not in the snapshot). -/
def save (ic : ItemsCol) : Json :=
  .obj [("type", .str "FeatureCollection"),
        ("features", .arr (ic.records.map encodeRecord)),
        ("collections", .arr (ic.collections.map .str))]

/-- Modelled from the spec: `Items.load` — reading a saved JSON document
back into a Result Collection, failing on a document of the wrong shape. -/
def load : Json → Option ItemsCol
  | .obj [("type", .str t), ("features", .arr fs), ("collections", .arr cs)] =>
    if t = "FeatureCollection" then
      match decodeRecords fs, decodeStrings cs with
      | some recs, some cols => some ⟨recs, cols⟩
      | _, _ => none
    else none
  | _ => none

/-- The six-record corpus of the tutorial's bbox/datetime/cloud-cover
search: 6 total matches drawn from two distinct collections. -/
def demoCorpus : List Record :=
  [⟨"LC80340332018034LGN00", "2018-02-03", "landsat-8-l1", [("eo:cloud_cover", 19)]⟩,
   ⟨"LC80340322018034LGN00", "2018-02-03", "landsat-8-l1", [("eo:cloud_cover", 36)]⟩,
   ⟨"S2A_12SWJ_20180202_0", "2018-02-02", "sentinel-2-l1c", [("eo:cloud_cover", 2)]⟩,
   ⟨"S2A_12SXJ_20180202_0", "2018-02-02", "sentinel-2-l1c", [("eo:cloud_cover", 3)]⟩,
   ⟨"S2A_12TXK_20180202_0", "2018-02-02", "sentinel-2-l1c", [("eo:cloud_cover", 1)]⟩,
   ⟨"S2A_12TWK_20180202_0", "2018-02-02", "sentinel-2-l1c", [("eo:cloud_cover", 4)]⟩]

lemma buildFilter_of_bad {s : String} (hs : parseProp s = none) :
    ∀ ss doc, s ∈ ss → buildFilter ss doc = none := by
  intro ss
  induction ss with
  | nil =>
    intro doc h
    exact absurd h (List.not_mem_nil s)
  | cons a rest ih =>
    intro doc h
    rcases List.mem_cons.mp h with h1 | h2
    · subst h1
      simp [buildFilter, hs]
    · cases hp : parseProp a with
      | none => simp [buildFilter, hp]
      | some e =>
        simp only [buildFilter, hp]
        exact ih _ h2

/-- C2: when both `ids` and `collection` are supplied to the `Search.search`
factory, only the direct ID-lookup path is taken: the normalized request is
the lookup keyed by the collection and the literal ID list, independent of
every other filter keyword (bbox, intersects, time, property, sort). -/
theorem searchFactory_ids_collection_lookup (kw : SearchKwargs) (ids : List String)
    (c : String) (hi : kw.ids = some ids) (hc : kw.collection = some c) :
    searchFactory kw = .ok (.lookup c ids) := by
  simp [searchFactory, hi, hc]

theorem searchFactory_ids_collection_lookup_witness :
    searchFactory
      { bbox := some [-110, 39, -105, 40], intersects := some "geom",
        time := some "2018-02-01/2018-02-04", datetime := some "2018-02-01",
        property := ["eo:cloud_cover<10"], sort := some ["-date"],
        ids := some ["LC80340332018034LGN00", "LC80340322018034LGN00"],
        collection := some "landsat-8-l1" }
      = .ok (.lookup "landsat-8-l1" ["LC80340332018034LGN00", "LC80340322018034LGN00"]) :=
  searchFactory_ids_collection_lookup _ _ _ rfl rfl

/-- C3: normalization fails with `InvalidQuery` — producing no request at
all — whenever `ids` is supplied without `collection`, and whenever some
property-expression string does not parse into a field/operator/value
triple. -/
theorem searchFactory_invalidQuery (kw : SearchKwargs) (ids : List String) (s : String) :
    (kw.ids = some ids → kw.collection = none → searchFactory kw = .error .invalidQuery)
    ∧ (kw.ids = none → s ∈ kw.property → parseProp s = none →
        searchFactory kw = .error .invalidQuery) := by
  constructor
  · intro hi hc
    simp [searchFactory, hi, hc]
  · intro hi hmem hbad
    cases hc : kw.collection with
    | none =>
      have hb : buildFilter kw.property [] = none := buildFilter_of_bad hbad _ _ hmem
      simp [searchFactory, hi, hc, hb]
    | some c =>
      have hb : buildFilter (kw.property ++ ["collection=" ++ c]) [] = none :=
        buildFilter_of_bad hbad _ _ (List.mem_append_left _ hmem)
      simp [searchFactory, hi, hc, hb]

theorem searchFactory_invalidQuery_witness :
    searchFactory { ids := some ["LC80340332018034LGN00"] } = .error .invalidQuery
    ∧ searchFactory { property := ["cloudcover"] } = .error .invalidQuery := by
  constructor
  · exact (searchFactory_invalidQuery { ids := some ["LC80340332018034LGN00"] }
      ["LC80340332018034LGN00"] "cloudcover").1 rfl rfl
  · exact (searchFactory_invalidQuery { property := ["cloudcover"] }
      ["LC80340332018034LGN00"] "cloudcover").2 rfl (by simp) (by decide)

/-- C6: the count-reporting entry point `Search.found` issues exactly one
request, with result limit 0, returns the server-reported total match
count, and transfers no result records. -/
theorem foundOp_count_only (corpus : List Record) :
    foundOp (mkServer corpus) =
      ([{ offset := 0, resultLimit := 0 }], .ok (corpus.length, [])) := by
  simp [foundOp, mkServer, Except.map]

lemma decodeProps_encodeProps (ps : List (String × Int)) :
    decodeProps (encodeProps ps) = some ps := by
  induction ps with
  | nil => rfl
  | cons p rest ih =>
    simp [encodeProps, decodeProps] at ih ⊢
    simpa [encodeProps] using ih

lemma decodeRecord_encodeRecord (r : Record) :
    decodeRecord (encodeRecord r) = some r := by
  cases r with
  | mk i d c ps =>
    simp [encodeRecord, decodeRecord, decodeProps_encodeProps]

lemma decodeRecords_encode (recs : List Record) :
    decodeRecords (recs.map encodeRecord) = some recs := by
  induction recs with
  | nil => rfl
  | cons r rest ih =>
    simp [decodeRecords, decodeRecord_encodeRecord, ih]

lemma decodeStrings_encode (ss : List String) :
    decodeStrings (ss.map Json.str) = some ss := by
  induction ss with
  | nil => rfl
  | cons s rest ih =>
    simp [decodeStrings, ih]

/-- C10: saving a finished Result Collection to a JSON document and loading
it back is an identity on the collection's contents — same records, in the
same order, with their ids, dates and queryable properties intact, and the
same collection references. -/
theorem load_save_roundtrip (ic : ItemsCol) : load (save ic) = some ic := by
  cases ic with
  | mk recs cols =>
    simp [save, load, decodeRecords_encode, decodeStrings_encode]

lemma insertRef_nodup {cs : List String} (c : String) (h : cs.Nodup) :
    (insertRef cs c).Nodup := by
  unfold insertRef
  split
  · exact h
  · next hmem => simp [List.nodup_append, h, hmem]

lemma mem_insertRef {cs : List String} {c x : String} :
    x ∈ insertRef cs c ↔ x ∈ cs ∨ x = c := by
  unfold insertRef
  split
  · next hmem =>
    constructor
    · exact Or.inl
    · rintro (h | h)
      · exact h
      · exact h ▸ hmem
  · simp

lemma collectRefs_foldl (recs : List Record) :
    ∀ cs : List String, cs.Nodup →
      (recs.foldl (fun l r => insertRef l r.collection) cs).Nodup
      ∧ ∀ x, x ∈ recs.foldl (fun l r => insertRef l r.collection) cs ↔
          x ∈ cs ∨ x ∈ recs.map Record.collection := by
  induction recs with
  | nil => intro cs h; simp [h]
  | cons r rest ih =>
    intro cs h
    have h2 := ih (insertRef cs r.collection) (insertRef_nodup _ h)
    refine ⟨h2.1, ?_⟩
    intro x
    rw [List.foldl_cons, (h2.2 x), mem_insertRef]
    simp [or_assoc]

lemma collectRefs_nodup (recs : List Record) : (collectRefs recs).Nodup :=
  (collectRefs_foldl recs [] List.nodup_nil).1

lemma mem_collectRefs (recs : List Record) (x : String) :
    x ∈ collectRefs recs ↔ x ∈ recs.map Record.collection := by
  have h := (collectRefs_foldl recs [] List.nodup_nil).2 x
  simpa [collectRefs] using h

/-- C9: the collection references accumulated alongside a fetched Result
Collection hold each distinct parent collection exactly once: they are
duplicate-free, contain exactly the collections referenced by the fetched
records, and number exactly as many as the distinct referenced
collections. -/
theorem itemsWithRefs_dedup (server : Server) (ps : Nat) (limit : Option Nat)
    (ic : ItemsCol) (h : (itemsWithRefs server ps limit).2 = .ok ic) :
    ic.collections.Nodup
    ∧ (∀ x, x ∈ ic.collections ↔ x ∈ ic.records.map Record.collection)
    ∧ ic.collections.length = (ic.records.map Record.collection).dedup.length := by
  have h2 : Except.map (fun recs => (⟨recs, collectRefs recs⟩ : ItemsCol))
      (itemsOp server ps limit).2 = .ok ic := by
    simpa [itemsWithRefs] using h
  have hcol : ic.collections = collectRefs ic.records := by
    cases hres : (itemsOp server ps limit).2 with
    | error e => rw [hres] at h2; simp [Except.map] at h2
    | ok recs =>
      rw [hres] at h2
      simp [Except.map] at h2
      rw [← h2]
  refine ⟨hcol ▸ collectRefs_nodup ic.records, fun x => hcol ▸ mem_collectRefs ic.records x, ?_⟩
  have hperm : ic.collections.Perm (ic.records.map Record.collection).dedup := by
    rw [List.perm_ext_iff_of_nodup (hcol ▸ collectRefs_nodup ic.records)
      (List.nodup_dedup _)]
    intro a
    rw [List.mem_dedup, hcol, mem_collectRefs]
  exact hperm.length_eq

theorem itemsWithRefs_dedup_witness :
    (itemsWithRefs (mkServer demoCorpus) 2 none).2 =
      .ok ⟨demoCorpus, ["landsat-8-l1", "sentinel-2-l1c"]⟩
    ∧ (["landsat-8-l1", "sentinel-2-l1c"] : List String).Nodup
    ∧ (∀ x, x ∈ (["landsat-8-l1", "sentinel-2-l1c"] : List String) ↔
        x ∈ demoCorpus.map Record.collection)
    ∧ (["landsat-8-l1", "sentinel-2-l1c"] : List String).length =
        (demoCorpus.map Record.collection).dedup.length := by
  have h : (itemsWithRefs (mkServer demoCorpus) 2 none).2 =
      .ok ⟨demoCorpus, ["landsat-8-l1", "sentinel-2-l1c"]⟩ := by rfl
  have h2 := itemsWithRefs_dedup (mkServer demoCorpus) 2 none
    ⟨demoCorpus, ["landsat-8-l1", "sentinel-2-l1c"]⟩ h
  exact ⟨h, h2.1, h2.2.1, h2.2.2⟩

lemma string_mk_toList (s : String) : String.mk s.toList = s := rfl

lemma string_toList_append (s t : String) : (s ++ t).toList = s.toList ++ t.toList :=
  String.data_append s t

lemma toList_ne_nil {s : String} (h : s ≠ "") : s.toList ≠ [] := by
  intro hn
  apply h
  have h2 := congrArg String.mk hn
  simpa [string_mk_toList] using h2

lemma splitProp_append_of_noop (cs rest : List Char)
    (h : ∀ c ∈ cs, isOpChar c = false) :
    splitProp (cs ++ rest) = (splitProp rest).map fun t => (cs ++ t.1, t.2) := by
  induction cs with
  | nil =>
    rw [List.nil_append]
    cases hsp : splitProp rest <;> simp
  | cons c cs ih =>
    have hc : ¬c = '=' ∧ ¬c = '<' ∧ ¬c = '>' := by
      simpa [isOpChar, and_assoc] using h c (List.mem_cons_self c cs)
    have ih2 := ih fun x hx => h x (List.mem_cons_of_mem c hx)
    rw [List.cons_append]
    simp only [splitProp, if_neg hc.1, if_neg hc.2.1, if_neg hc.2.2, ih2]
    cases splitProp rest with
    | none => simp
    | some t => simp

lemma splitProp_opSymbol (o : Op) (v : List Char)
    (hv : (o = .lt ∨ o = .gt) → v.head? ≠ some '=') :
    splitProp ((opSymbol o).toList ++ v) = some ([], o, v) := by
  cases o with
  | eq => simp [opSymbol, splitProp]
  | lte => simp [opSymbol, splitProp]
  | gte => simp [opSymbol, splitProp]
  | lt =>
    cases v with
    | nil => simp [opSymbol, splitProp]
    | cons a rest =>
      have ha : ¬a = '=' := by
        intro hh
        exact hv (Or.inl rfl) (by rw [hh]; rfl)
      simp [opSymbol, splitProp, ha]
  | gt =>
    cases v with
    | nil => simp [opSymbol, splitProp]
    | cons a rest =>
      have ha : ¬a = '=' := by
        intro hh
        exact hv (Or.inr rfl) (by rw [hh]; rfl)
      simp [opSymbol, splitProp, ha]

lemma parseProp_abbrev (f v : String) (o : Op) (hf : f ≠ "") (hv : v ≠ "")
    (hfo : ∀ c ∈ f.toList, isOpChar c = false)
    (hve : (o = .lt ∨ o = .gt) → v.toList.head? ≠ some '=') :
    parseProp (f ++ opSymbol o ++ v) = some ⟨f, o, v⟩ := by
  have htl : (f ++ opSymbol o ++ v).toList =
      f.toList ++ ((opSymbol o).toList ++ v.toList) := by
    rw [string_toList_append, string_toList_append, List.append_assoc]
  unfold parseProp
  rw [htl, splitProp_append_of_noop f.toList _ hfo, splitProp_opSymbol o v.toList hve]
  simp [string_mk_toList]
  exact ⟨toList_ne_nil hf, toList_ne_nil hv⟩

lemma mergeExpr_fields (doc : FilterDoc) (e : PropExpr) :
    (mergeExpr doc e).map Prod.fst =
      if e.field ∈ doc.map Prod.fst then doc.map Prod.fst
      else doc.map Prod.fst ++ [e.field] := by
  induction doc with
  | nil => simp [mergeExpr]
  | cons p rest ih =>
    cases p with
    | mk f co =>
      by_cases hef : e.field = f
      · simp [mergeExpr, hef]
      · simp only [mergeExpr, if_neg hef, List.map_cons, ih, List.mem_cons]
        simp only [hef, false_or]
        split <;> simp

lemma mergeExpr_nodup {doc : FilterDoc} (e : PropExpr)
    (h : (doc.map Prod.fst).Nodup) : ((mergeExpr doc e).map Prod.fst).Nodup := by
  rw [mergeExpr_fields]
  split
  · exact h
  · next hmem => simp [List.nodup_append, h, hmem]

lemma buildFilter_nodup : ∀ (ss : List String) (doc doc2 : FilterDoc),
    (doc.map Prod.fst).Nodup → buildFilter ss doc = some doc2 →
    (doc2.map Prod.fst).Nodup := by
  intro ss
  induction ss with
  | nil =>
    intro doc doc2 h heq
    simp [buildFilter] at heq
    rw [← heq]
    exact h
  | cons s rest ih =>
    intro doc doc2 h heq
    cases hp : parseProp s with
    | none => simp [buildFilter, hp] at heq
    | some e =>
      simp only [buildFilter, hp] at heq
      exact ih _ _ (mergeExpr_nodup e h) heq

/-- C4: an abbreviated property string `field⟨op⟩value` parses into the
Property Expression with the canonical comparison name of the operator
symbol; a filter document built from property strings keys each field name
exactly once (expressions on the same field share one comparison object);
and the tutorial's abbreviated property list produces the same canonical
filter document as its explicit `query` form. -/
theorem propertyParse_canonical (f v : String) (o : Op) (hf : f ≠ "") (hv : v ≠ "")
    (hfo : ∀ c ∈ f.toList, isOpChar c = false)
    (hve : (o = .lt ∨ o = .gt) → v.toList.head? ≠ some '=') :
    parseProp (f ++ opSymbol o ++ v) = some ⟨f, o, v⟩
    ∧ (∀ ss doc, buildFilter ss [] = some doc → (doc.map Prod.fst).Nodup)
    ∧ buildFilter ["eo:cloud_cover<10", "collection=landsat-8-l1"] [] =
        some [("eo:cloud_cover", [(.lt, "10")]), ("collection", [(.eq, "landsat-8-l1")])] := by
  refine ⟨parseProp_abbrev f v o hf hv hfo hve, ?_, by rfl⟩
  intro ss doc heq
  exact buildFilter_nodup ss [] doc (by simp) heq

theorem propertyParse_canonical_witness :
    parseProp ("eo:cloud_cover" ++ opSymbol .lt ++ "10") =
      some ⟨"eo:cloud_cover", .lt, "10"⟩
    ∧ (∀ ss doc, buildFilter ss [] = some doc → (doc.map Prod.fst).Nodup)
    ∧ buildFilter ["eo:cloud_cover<10", "collection=landsat-8-l1"] [] =
        some [("eo:cloud_cover", [(.lt, "10")]), ("collection", [(.eq, "landsat-8-l1")])] :=
  propertyParse_canonical "eo:cloud_cover" "10" .lt (by decide) (by decide)
    (by decide) (by decide)

/-- C5: with a `collection` keyword (and no `ids`), the factory behaves
exactly as if an equality property expression `collection=C` had been
appended to the explicit property list, and that appended string parses to
the equality Property Expression on the `collection` field. -/
theorem searchFactory_collection_shortcut (kw : SearchKwargs) (c : String)
    (hi : kw.ids = none) (hc : kw.collection = some c) (hne : c ≠ "") :
    searchFactory kw =
      searchFactory
        { kw with
          collection := none
          property := kw.property ++ ["collection=" ++ c] }
    ∧ parseProp ("collection=" ++ c) = some ⟨"collection", .eq, c⟩ := by
  constructor
  · simp [searchFactory, hi, hc]
  · have h := parseProp_abbrev "collection" c .eq (by decide) hne (by decide)
      (by intro hh; cases hh <;> contradiction)
    simpa [opSymbol] using h

theorem searchFactory_collection_shortcut_witness :
    searchFactory { collection := some "landsat-8-l1",
                    property := ["eo:cloud_cover<10"] } =
      searchFactory { collection := none,
                      property := ["eo:cloud_cover<10", "collection=landsat-8-l1"] }
    ∧ parseProp ("collection=" ++ "landsat-8-l1") =
        some ⟨"collection", .eq, "landsat-8-l1"⟩ := by
  have h := searchFactory_collection_shortcut
    { collection := some "landsat-8-l1", property := ["eo:cloud_cover<10"] }
    "landsat-8-l1" rfl rfl (by decide)
  simpa using h

lemma fetchPages_mkServer (corpus : List Record) (ps bound : Nat) (hps : 0 < ps) :
    ∀ fuel offset, corpus.length ≤ offset + fuel * ps →
      ∃ tr k, fetchPages (mkServer corpus) ps bound fuel offset (corpus.take offset)
          = (tr, .ok (corpus.take k)) ∧ (bound ≤ k ∨ corpus.length ≤ k) := by
  intro fuel
  induction fuel with
  | zero =>
    intro offset hlen
    exact ⟨[], offset, rfl, Or.inr (by simpa using hlen)⟩
  | succ fuel ih =>
    intro offset hlen
    by_cases hstop : bound ≤ (corpus.take offset).length
    · refine ⟨[], offset, ?_, Or.inl ?_⟩
      · simp only [fetchPages, if_pos hstop]
      · calc bound ≤ (corpus.take offset).length := hstop
          _ ≤ offset := by simp [List.length_take]
    · have hpage : ((corpus.drop offset).take ps).length =
          min ps (corpus.length - offset) := by
        simp [List.length_take, List.length_drop]
      by_cases hshort : ((corpus.drop offset).take ps).length < ps
      · refine ⟨[⟨offset, ps⟩], offset + ps, ?_, Or.inr ?_⟩
        · simp only [fetchPages, if_neg hstop, mkServer, if_pos hshort]
          rw [← List.take_add]
        · rw [hpage] at hshort
          omega
      · have hfull : ((corpus.drop offset).take ps).length = ps := by
          rw [hpage] at hshort ⊢
          omega
        have hlen2 : corpus.length ≤ offset + ps + fuel * ps := by
          rw [Nat.succ_mul] at hlen
          omega
        obtain ⟨tr, k, heq, hk⟩ := ih (offset + ps) hlen2
        refine ⟨⟨offset, ps⟩ :: tr, k, ?_, hk⟩
        simp only [fetchPages, if_neg hstop, mkServer, if_neg hshort]
        rw [hfull, ← List.take_add, heq]

lemma itemsOp_mkServer (corpus : List Record) (ps : Nat) (limit : Option Nat)
    (hps : 0 < ps) :
    ∃ tr, itemsOp (mkServer corpus) ps limit
        = (tr, .ok (corpus.take (boundOf limit corpus.length))) := by
  have hbound : boundOf limit corpus.length ≤ corpus.length := by
    cases limit <;> simp [boundOf]
  have hfuel : corpus.length ≤ 0 + (corpus.length + 1) * ps := by
    have h1 : corpus.length + 1 ≤ (corpus.length + 1) * ps :=
      Nat.le_mul_of_pos_right _ hps
    omega
  obtain ⟨tr, k, heq, hk⟩ := fetchPages_mkServer corpus ps
    (boundOf limit corpus.length) hps (corpus.length + 1) 0 hfuel
  refine ⟨⟨0, 0⟩ :: tr, ?_⟩
  have hmin : min (boundOf limit corpus.length) k = boundOf limit corpus.length := by
    omega
  simp only [itemsOp, mkServer, List.drop_zero]
  rw [show (corpus.take 0 : List Record) = [] from rfl] at heq
  simp only [heq, Except.map, List.take_take, hmin]

/-- C1: a full fetch with limit `L` against an honest server over any corpus
returns exactly `min L total` records; in particular the tutorial's
`limit=2` fetch against the 6-match corpus returns exactly the first two
records using one count request and a single minimal page request. -/
theorem items_limit_min (corpus : List Record) (L ps : Nat) (hps : 0 < ps) :
    (∃ tr recs, itemsOp (mkServer corpus) ps (some L) = (tr, .ok recs)
      ∧ recs.length = min L corpus.length)
    ∧ itemsOp (mkServer demoCorpus) 2 (some 2) =
        ([⟨0, 0⟩, ⟨0, 2⟩], .ok (demoCorpus.take 2)) := by
  constructor
  · obtain ⟨tr, heq⟩ := itemsOp_mkServer corpus ps (some L) hps
    refine ⟨tr, corpus.take (boundOf (some L) corpus.length), heq, ?_⟩
    simp [boundOf, List.length_take]
  · rfl

theorem items_limit_min_witness :
    (∃ tr recs, itemsOp (mkServer demoCorpus) 1 (some 2) = (tr, .ok recs)
      ∧ recs.length = min 2 demoCorpus.length)
    ∧ itemsOp (mkServer demoCorpus) 2 (some 2) =
        ([⟨0, 0⟩, ⟨0, 2⟩], .ok (demoCorpus.take 2)) :=
  items_limit_min demoCorpus 2 1 (by decide)

/-- C7: a fetch with no limit against an honest server over a corpus of N
total matches keeps requesting pages until all N records are received and
returns exactly the corpus — N records, duplicate-free whenever the corpus
is. -/
theorem items_no_limit_total (corpus : List Record) (ps : Nat) (hps : 0 < ps) :
    ∃ tr recs, itemsOp (mkServer corpus) ps none = (tr, .ok recs)
      ∧ recs = corpus ∧ recs.length = corpus.length
      ∧ (corpus.Nodup → recs.Nodup) := by
  obtain ⟨tr, heq⟩ := itemsOp_mkServer corpus ps none hps
  refine ⟨tr, corpus.take (boundOf none corpus.length), heq, ?_, ?_, ?_⟩
  · simp [boundOf]
  · simp [boundOf]
  · intro h
    simpa [boundOf] using h

theorem items_no_limit_total_witness :
    ∃ tr recs, itemsOp (mkServer demoCorpus) 2 none = (tr, .ok recs)
      ∧ recs = demoCorpus ∧ recs.length = demoCorpus.length
      ∧ (demoCorpus.Nodup → recs.Nodup) :=
  items_no_limit_total demoCorpus 2 (by decide)

lemma fetchPages_trace (server : Server) (ps bound : Nat) (hps : 0 < ps) :
    ∀ fuel offset acc,
      ((fetchPages server ps bound fuel offset acc).1.map ApiRequest.offset).Pairwise (· < ·)
      ∧ ∀ r ∈ (fetchPages server ps bound fuel offset acc).1,
          offset ≤ r.offset ∧ r.resultLimit = ps := by
  intro fuel
  induction fuel with
  | zero =>
    intro offset acc
    exact ⟨List.Pairwise.nil, by simp [fetchPages]⟩
  | succ fuel ih =>
    intro offset acc
    by_cases hstop : bound ≤ acc.length
    · simp only [fetchPages, if_pos hstop]
      exact ⟨List.Pairwise.nil, by simp⟩
    · simp only [fetchPages, if_neg hstop]
      cases hs : server ⟨offset, ps⟩ with
      | error e =>
        refine ⟨?_, ?_⟩
        · simp
        · intro r hr
          simp at hr
          simp [hr]
      | ok page =>
        by_cases hshort : page.records.length < ps
        · simp only [if_pos hshort]
          refine ⟨by simp, ?_⟩
          intro r hr
          simp at hr
          simp [hr]
        · simp only [if_neg hshort]
          have hrec := ih (offset + page.records.length) (acc ++ page.records)
          refine ⟨?_, ?_⟩
          · simp only [List.map_cons]
            refine List.Pairwise.cons ?_ hrec.1
            intro o ho
            simp only [List.mem_map] at ho
            obtain ⟨r, hr, hro⟩ := ho
            have := (hrec.2 r hr).1
            omega
          · intro r hr
            rcases List.mem_cons.mp hr with h1 | h2
            · simp [h1]
            · have := hrec.2 r h2
              omega

lemma fetchPages_failServer (corpus : List Record) (ps bound failAt : Nat)
    (hps : 0 < ps) (hb : failAt < bound) (hlen : failAt + ps ≤ corpus.length + 1) :
    ∀ fuel offset, offset ≤ failAt → ps ∣ (failAt - offset) → failAt - offset < fuel →
      ∃ tr, fetchPages (failServer corpus failAt) ps bound fuel offset (corpus.take offset)
          = (tr, .error .transportError)
        ∧ tr.head? = some ⟨offset, ps⟩ := by
  intro fuel
  induction fuel with
  | zero =>
    intro offset _ _ hfuel
    omega
  | succ fuel ih =>
    intro offset hoff hdvd hfuel
    have hstop : ¬ bound ≤ (corpus.take offset).length := by
      simp only [List.length_take]
      omega
    by_cases hend : failAt ≤ offset
    · have heq : offset = failAt := by omega
      refine ⟨[⟨offset, ps⟩], ?_, rfl⟩
      simp only [fetchPages, if_neg hstop, failServer, if_pos hend]
    · have hserver : failServer corpus failAt ⟨offset, ps⟩ =
          .ok ⟨(corpus.drop offset).take ps, corpus.length⟩ := by
        simp [failServer, mkServer, hend]
      have hps_le : ps ≤ failAt - offset :=
        Nat.le_of_dvd (by omega) hdvd
      have hfull : ((corpus.drop offset).take ps).length = ps := by
        simp only [List.length_take, List.length_drop]
        omega
      have hnshort : ¬ ((corpus.drop offset).take ps).length < ps := by
        omega
      obtain ⟨tr, heq2, hhead⟩ := ih (offset + ps) (by omega)
        (by have h2 : failAt - (offset + ps) = failAt - offset - ps := by omega
            rw [h2]
            exact Nat.dvd_sub' hdvd (dvd_refl ps))
        (by omega)
      refine ⟨⟨offset, ps⟩ :: tr, ?_, rfl⟩
      simp only [fetchPages, if_neg hstop, hserver, if_neg hnshort]
      rw [hfull, ← List.take_add, heq2]

/-- C8: when a page request fails mid-fetch, `Search.items` surfaces the
transport error: the outcome carries no records at all (earlier pages —
the successful first page request is in the trace — are discarded), and no
request is issued twice (the failure is not retried internally). -/
theorem items_transport_failure (corpus : List Record) (ps failAt : Nat)
    (limit : Option Nat) (hps : 0 < ps) (h0 : 0 < failAt) (hdvd : ps ∣ failAt)
    (hb : failAt < boundOf limit corpus.length)
    (hlen : failAt + ps ≤ corpus.length + 1) :
    ∃ tr, itemsOp (failServer corpus failAt) ps limit = (tr, .error .transportError)
      ∧ (∀ recs, (itemsOp (failServer corpus failAt) ps limit).2 ≠ .ok recs)
      ∧ tr.Nodup ∧ ⟨0, ps⟩ ∈ tr := by
  have hcount : failServer corpus failAt ⟨0, 0⟩ = .ok ⟨[], corpus.length⟩ := by
    simp [failServer, mkServer, Nat.not_le.mpr h0]
  obtain ⟨tr0, heq, hhead⟩ := fetchPages_failServer corpus ps
    (boundOf limit corpus.length) failAt hps hb hlen (corpus.length + 1) 0
    (Nat.zero_le _) (by simpa using hdvd) (by omega)
  rw [show (corpus.take 0 : List Record) = [] from rfl] at heq
  have hitems : itemsOp (failServer corpus failAt) ps limit =
      (⟨0, 0⟩ :: tr0, .error .transportError) := by
    simp only [itemsOp, hcount, heq, Except.map]
  refine ⟨⟨0, 0⟩ :: tr0, hitems, ?_, ?_, ?_⟩
  · intro recs
    rw [hitems]
    simp
  · have htrace := fetchPages_trace (failServer corpus failAt) ps
      (boundOf limit corpus.length) hps (corpus.length + 1) 0 []
    rw [heq] at htrace
    have hnd : tr0.Nodup := by
      have h2 : (tr0.map ApiRequest.offset).Nodup := htrace.1.imp Nat.ne_of_lt
      exact h2.of_map _
    refine List.nodup_cons.mpr ⟨?_, hnd⟩
    intro hmem
    have := (htrace.2 _ hmem).2
    simp at this
    omega
  · exact List.mem_cons_of_mem _ (by
      cases tr0 with
      | nil => cases hhead
      | cons a rest =>
        simp at hhead
        rw [← hhead]
        exact List.mem_cons_self a rest)

theorem items_transport_failure_witness :
    ∃ tr, itemsOp (failServer demoCorpus 2) 2 none = (tr, .error .transportError)
      ∧ (∀ recs, (itemsOp (failServer demoCorpus 2) 2 none).2 ≠ .ok recs)
      ∧ tr.Nodup ∧ (⟨0, 2⟩ : ApiRequest) ∈ tr :=
  items_transport_failure demoCorpus 2 2 none (by decide) (by decide) (by decide)
    (by decide) (by decide)

end SatSearch
